import Mathlib

/-!
Verification model of immich-upload-optimizer (Go sources: helpers.go, tasks.go,
plus the main dispatcher and logger files).  Bytes are modelled as `List Nat`,
Go strings as `List Char`, `int64` as `Int`.  Filesystem and network primitives
are modelled by explicit outcome oracles in a request environment; the SHA1
content hash is modelled as an abstract pure function of a file's bytes.
-/

namespace IUO

/-! ## helpers.go : replaceAllBytes -/

/-- Byte-string matching: `isPre pat s` holds when `pat` is an initial segment
of `s` (the primitive under `bytes.Index`). -/
def isPre : List Nat → List Nat → Bool
  | [], _ => true
  | _ :: _, [] => false
  | a :: p, b :: s => a == b && isPre p s

/-- Model of Go `bytes.Index`: the first index of `s` at which `pat` begins,
`none` when `pat` does not occur (Go returns `-1`).  For an empty `pat` the
result is `some 0`, as in Go. -/
def bIndex (pat : List Nat) : List Nat → Option Nat
  | [] => if isPre pat [] then some 0 else none
  | b :: t => if isPre pat (b :: t) then some 0 else (bIndex pat t).map (fun i => i + 1)

/-- Model of Go `copy(s[off:], v)`: overwrite in place starting at `off`,
copying `min (length v) (length s - off)` bytes; the slice length never
changes. -/
def writeAt (s : List Nat) (off : Nat) (v : List Nat) : List Nat :=
  s.take off ++ v.take (s.length - off) ++ s.drop (off + min v.length (s.length - off))

/-- The loop of `replaceAllBytes` (helpers.go lines 65-74), with explicit
fuel: one unit of fuel per iteration.  Each iteration finds the next match of
`old` at or after `offset`, overwrites it in place with `v`, and advances the
offset past the written bytes.  `s.length + 1` units of fuel cover every
terminating execution of the Go loop (the offset strictly advances whenever
`v` is nonempty); when `v` is empty and `old` occurs, the Go loop never
advances and never terminates, and the fuel model then returns the buffer
unchanged. -/
def replaceLoop (old v : List Nat) : Nat → List Nat → Nat → List Nat
  | 0, s, _ => s
  | fuel + 1, s, offset =>
    match bIndex old (s.drop offset) with
    | none => s
    | some i => replaceLoop old v fuel (writeAt s (offset + i) v) (offset + i + v.length)

/-- Model of `replaceAllBytes` (helpers.go lines 59-76): if the replacement is
longer than the match the input is returned untouched; otherwise every
occurrence of `old` is overwritten in place by `v`. -/
def replaceAllBytes (s old v : List Nat) : List Nat :=
  if old.length < v.length then s
  else replaceLoop old v (s.length + 1) s 0

/-- `occursIn pat s` : `pat` appears as a contiguous segment of `s` (at some
position).  Spelled out independently of `bIndex` to state occurrence claims. -/
def occursIn (pat : List Nat) : List Nat → Bool
  | [] => isPre pat []
  | b :: t => isPre pat (b :: t) || occursIn pat t

/-! ## helpers.go : humanReadableSize, isValidFilename; Go path/strings helpers -/

/-- The unit-and-quantity rendered by Go `humanReadableSize`.  The `%.2f`
floating-point rendering is abstracted as the integer number of hundredths of
the unit (the claims only rely on equal sizes rendering equally). -/
inductive HRSize where
  | tb (h : Int)
  | gb (h : Int)
  | mb (h : Int)
  | kb (h : Int)
  | bytes (n : Int)
deriving DecidableEq, Repr, Inhabited

/-- Model of `humanReadableSize` (helpers.go lines 78-99): pick the largest
binary unit not exceeding the size. -/
def humanReadableSize (size : Int) : HRSize :=
  if size ≥ 2 ^ 40 then .tb ((100 * size) / 2 ^ 40)
  else if size ≥ 2 ^ 30 then .gb ((100 * size) / 2 ^ 30)
  else if size ≥ 2 ^ 20 then .mb ((100 * size) / 2 ^ 20)
  else if size ≥ 2 ^ 10 then .kb ((100 * size) / 2 ^ 10)
  else .bytes size

/-- A character allowed by the filename regexp `[a-zA-Z0-9._-]`. -/
def validChar (c : Char) : Bool :=
  c.isAlpha || c.isDigit || c = '.' || c = '_' || c = '-'

/-- Model of `isValidFilename` (helpers.go lines 101-104): the regexp
`[a-zA-Z0-9._-]+` anchored on both sides. -/
def isValidFilename (s : List Char) : Bool :=
  !s.isEmpty && s.all validChar

/-- Model of Go `path.Ext`: the suffix starting at the last dot of the final
slash-separated element; empty when that element has no dot. -/
def goExt (s : List Char) : List Char :=
  let rev := s.reverse.takeWhile (fun c => c ≠ '/')
  if '.' ∈ rev then '.' :: (rev.takeWhile (fun c => c ≠ '.')).reverse
  else []

/-- Model of Go `strings.TrimPrefix(s, ".")`. -/
def trimPrefixDot : List Char → List Char
  | '.' :: t => t
  | s => s

/-- Model of Go `strings.TrimSuffix`. -/
def trimSuffix (s suf : List Char) : List Char :=
  if suf.isSuffixOf s then s.take (s.length - suf.length) else s

/-- Model of Go `strings.ToLower` (ASCII, which covers file extensions). -/
def toLowerStr (s : List Char) : List Char :=
  s.map Char.toLower

/-! ## tasks.go : data model

`Task` is declared in the repository's config file loader, which is not under
src/; its fields are modelled from the spec (section 3, "Task": set of matched
file extensions, minimum input size in bytes, a command template) and from how
tasks.go uses them (`t.Extensions`, `task.MinFilesizeBytes`,
`tp.Task.CommandTemplate` — the template is only run, so it is abstracted by
the command outcome oracle below). -/

/-- Modelled from the spec: a conversion rule (config.go is not under src/).
Only the fields tasks.go reads are kept: the matched extensions and the
minimum file size. -/
structure Task where
  extensions : List (List Char)
  minFilesizeBytes : Int
deriving DecidableEq, Repr

/-- One file found in the scratch output directory after the external command
ran: its directory-entry name and its content bytes (its on-disk size is the
content length). -/
structure ProducedFile where
  name : List Char
  content : List Nat
deriving DecidableEq, Repr

/-- Outcome of the external command invocation: a non-zero exit, or a zero
exit together with the resulting listing of the scratch output directory. -/
inductive CmdResult where
  | fail
  | ok (files : List ProducedFile)
deriving DecidableEq, Repr

/-- Environment of one upload request: the declared upload (filename, size,
content bytes) together with the configured tasks and the outcome oracles of
the fallible external steps (temp-file creation, the copy of the upload into
it, scratch-dir creation, template rendering, the external command, and the
upstream upload).  Reads of just-created scratch files (ReadDir/Open/Stat)
are assumed to succeed. -/
structure ReqEnv where
  tasks : List Task
  filename : List Char
  size : Int
  content : List Nat
  tempCreateOk : Bool
  copyOk : Bool
  workDirOk : Bool
  templateOk : Bool
  cmd : CmdResult
  uploadOk : Bool
deriving DecidableEq, Repr

/-- The fields of the Go `TaskProcessor` that the job logic reads (tasks.go
lines 16-33); the temp paths are tracked by the resource actions instead. -/
structure TaskProcessor where
  task : Task
  originalFilename : List Char
  originalExtension : List Char
  originalSize : Int
  originalContent : List Nat
deriving DecidableEq, Repr

/-- The lowercased, dot-stripped extension used for task lookup
(tasks.go line 42). -/
def checkExtOf (filename : List Char) : List Char :=
  toLowerStr (trimPrefixDot (goExt filename))

/-- The task-lookup loop of tasks.go lines 43-49: the first task whose
extension list contains the lowercased extension. -/
def findTask (tasks : List Task) (ext : List Char) : Option Task :=
  tasks.find? (fun t => t.extensions.contains ext)

/-- Model of `NewTaskProcessorFromMultipart` (tasks.go lines 35-76): validate
the extension, look up a task, enforce the minimum size, create the original
temp file and copy the upload into it.  Resource creation is tracked
separately by `ctorActs`. -/
def NewTaskProcessorFromMultipart (env : ReqEnv) : Except (List Char) TaskProcessor :=
  let ext := goExt env.filename
  if isValidFilename ext = false then .error ['e', '1']
  else
    match findTask env.tasks (checkExtOf env.filename) with
    | none => .error ['e', '2']
    | some t =>
      if env.size < t.minFilesizeBytes then .error ['e', '3']
      else if env.tempCreateOk = false then .error ['e', '4']
      else if env.copyOk = false then .error ['e', '5']
      else .ok { task := t, originalFilename := env.filename, originalExtension := ext,
                 originalSize := env.size, originalContent := env.content }

/-- Whether the constructor reaches `os.CreateTemp` and it succeeds, i.e. an
original temp file comes into existence during construction (tasks.go
line 58). -/
def ctorCreatesTemp (env : ReqEnv) : Bool :=
  isValidFilename (goExt env.filename) &&
  (match findTask env.tasks (checkExtOf env.filename) with
   | none => false
   | some t => decide (t.minFilesizeBytes ≤ env.size)) &&
  env.tempCreateOk

/-- The metadata `Run` records on success (tasks.go lines 172-184). -/
structure RunInfo where
  processedName : List Char
  processedContent : List Nat
  processedSize : Int
  processedExtension : List Char
  processedFilename : List Char
deriving DecidableEq, Repr

/-- The part of `TaskProcessor.Run` after the external command exits with
status zero (tasks.go lines 163-185): the scratch directory must hold exactly
one file; that file's size and extension are recorded, and the client-facing
filename is the original filename with its extension swapped for the produced
one. -/
def runPost (originalFilename originalExtension : List Char) (files : List ProducedFile) :
    Except (List Char) RunInfo :=
  match files with
  | [f] =>
    .ok { processedName := f.name, processedContent := f.content,
          processedSize := (f.content.length : Int),
          processedExtension := goExt f.name,
          processedFilename := trimSuffix originalFilename originalExtension ++ goExt f.name }
  | _ => .error ['n']

/-- Model of `TaskProcessor.Run` (tasks.go lines 124-186): scratch directory
creation, template rendering, the external command, then `runPost`. -/
def TaskProcessor.Run (tp : TaskProcessor) (env : ReqEnv) : Except (List Char) RunInfo :=
  if env.workDirOk = false then .error ['w']
  else if env.templateOk = false then .error ['t']
  else
    match env.cmd with
    | .fail => .error ['c']
    | .ok files => runPost tp.originalFilename tp.originalExtension files

/-! ## tasks.go : newJob as an action trace -/

/-- The temporary filesystem resources a session owns: the original-file temp
path and the scratch work directory (the produced file lives inside the work
directory and is reclaimed with it). -/
inductive Res where
  | origTemp
  | workDir
deriving DecidableEq, Repr

/-- The hash-identity-store key type of a job: the Go key is the string
`"<filename>" (<humanReadableSize(size)>)`, a pair of the filename and the
rendered size. -/
abbrev JobKey := List Char × HRSize

/-- Model of the job key built at tasks.go line 213. -/
def jobKey (filename : List Char) (size : Int) : JobKey :=
  (filename, humanReadableSize size)

/-- Observable actions of one run of `newJob`, in program order: in-flight
table operations, temp-resource acquisition/release, the start of the
conversion pipeline (`TaskProcessor.Run`), the upstream upload call (with the
forwarded filename and file content), the HTTP error response, and the
`addChecksums(newHash, originalHash)` call. -/
inductive Action where
  | tableStore (k : JobKey)
  | tableDelete (k : JobKey)
  | acquire (r : Res)
  | release (r : Res)
  | runStart
  | upload (name : List Char) (content : List Nat)
  | httpError
  | record (newHash oldHash : List Nat)
deriving DecidableEq, Repr

/-- Resource acquisitions performed inside `NewTaskProcessorFromMultipart`:
the original temp file is created exactly when the constructor reaches
`os.CreateTemp` and it succeeds — including the path where the subsequent
`io.Copy` fails and the constructor returns an error without removing it. -/
def ctorActs (env : ReqEnv) : List Action :=
  if ctorCreatesTemp env then [.acquire .origTemp] else []

/-- Resource acquisitions performed inside `TaskProcessor.Run` up to the
external command: the run starts (a semaphore slot is taken) and the scratch
work directory is created when `os.MkdirTemp` succeeds. -/
def runActs (env : ReqEnv) : List Action :=
  if env.workDirOk then [.runStart, .acquire .workDir] else [.runStart]

/-- The `http.Error` written when `uploadUpstream` fails (tasks.go
lines 253-256); `newJob` then continues rather than returning. -/
def uploadErrActs (env : ReqEnv) : List Action :=
  if env.uploadOk then [] else [.httpError]

/-- The body of `newJob` after the in-flight-table registration (tasks.go
lines 222-267), as the list of actions it performs and whether it returns a
non-nil error.  `sha` is the SHA1 content hash, modelled as a pure function
of a file's bytes.  Branches:
* constructor error (invalid extension, no task, below minimum, temp-file or
  copy failure): passthrough — the original is uploaded under its original
  name and nothing is recorded;
* `Run` error: the deferred `Close` reclaims the temp resources and `newJob`
  returns the error without uploading;
* `OriginalSize ≤ ProcessedSize`: the work directory is reclaimed, the
  original is uploaded under its original name, the deferred `Close` reclaims
  the original temp file, nothing is recorded;
* otherwise: the original temp file is reclaimed after hashing the original,
  the processed file is uploaded under the derived name, the checksum pair
  `(sha processed, sha original)` is recorded even when the upload failed,
  and the deferred `Close` reclaims the work directory. -/
def newJobBody (sha : List Nat → List Nat) (env : ReqEnv) : List Action × Bool :=
  match NewTaskProcessorFromMultipart env with
  | .error _ =>
    (ctorActs env ++ [.upload env.filename env.content] ++ uploadErrActs env, false)
  | .ok tp =>
    match tp.Run env with
    | .error _ =>
      (ctorActs env ++ runActs env ++ [.release .origTemp] ++
        (if env.workDirOk then [.release .workDir] else []), true)
    | .ok info =>
      if tp.originalSize ≤ info.processedSize then
        (ctorActs env ++ runActs env ++
          [.release .workDir, .upload env.filename env.content] ++ uploadErrActs env ++
          [.release .origTemp], false)
      else
        (ctorActs env ++ runActs env ++
          [.release .origTemp, .upload info.processedFilename info.processedContent] ++
          uploadErrActs env ++
          [.record (sha info.processedContent) (sha tp.originalContent), .release .workDir],
         false)

/-- Model of `newJob` (tasks.go lines 202-268) for a request whose multipart
form parses.  `tableHasKey` is the outcome of the `jobs.Load` duplicate
check: when the key is present the request is failed immediately with a
server error; otherwise the key is stored, the body runs, and the deferred
`jobs.Delete` removes the key last. -/
def newJob (sha : List Nat → List Nat) (env : ReqEnv) (tableHasKey : Bool) :
    List Action × Bool :=
  if tableHasKey then ([.httpError], true)
  else
    (.tableStore (jobKey env.filename env.size) ::
      ((newJobBody sha env).1 ++ [.tableDelete (jobKey env.filename env.size)]),
     (newJobBody sha env).2)

/-! ## Trace observers -/

/-- The uploads in a trace: each `uploadUpstream` call's filename and file
content, in order. -/
def uploadsOf (tr : List Action) : List (List Char × List Nat) :=
  tr.filterMap fun a =>
    match a with
    | .upload n c => some (n, c)
    | _ => none

/-- The `addChecksums` calls in a trace: each recorded (newHash, oldHash)
pair, in order. -/
def recordsOf (tr : List Action) : List (List Nat × List Nat) :=
  tr.filterMap fun a =>
    match a with
    | .record nh oh => some (nh, oh)
    | _ => none

/-- Whether the conversion pipeline was started at all in a trace. -/
def hasRunStart (tr : List Action) : Bool :=
  tr.any fun a =>
    match a with
    | .runStart => true
    | _ => false

/-- The in-flight-table operations in a trace, in order. -/
def tableOpsOf (tr : List Action) : List Action :=
  tr.filter fun a =>
    match a with
    | .tableStore _ => true
    | .tableDelete _ => true
    | _ => false

/-- The temp resources still alive after a trace, threading a held-list
through the acquire/release actions (release of a non-held resource is the
no-op guard of `CleanOriginalFile` / `CleanWorkDir`). -/
def liveAfter : List Res → List Action → List Res
  | held, [] => held
  | held, .acquire r :: t => liveAfter (held ++ [r]) t
  | held, .release r :: t => liveAfter (held.erase r) t
  | held, .tableStore _ :: t => liveAfter held t
  | held, .tableDelete _ :: t => liveAfter held t
  | held, .runStart :: t => liveAfter held t
  | held, .upload _ _ :: t => liveAfter held t
  | held, .httpError :: t => liveAfter held t
  | held, .record _ _ :: t => liveAfter held t

/-- The one exit path that leaks: the constructor created the original temp
file and the copy of the upload into it failed — the constructor returns an
error without removing the file and the caller has no processor to close. -/
def leaksOrigTemp (env : ReqEnv) : Bool :=
  ctorCreatesTemp env && !env.copyOk

/-! ## In-flight job table: interleaving model for the duplicate check

tasks.go lines 215-220 perform the duplicate check (`jobs.Load`) and the
registration (`jobs.Store`) as two separate operations on the shared
`sync.Map`.  The model runs two requests with the same key, each stepping
through: Load (reject when the key is present, else proceed), Store
(insert the key), then the deferred Delete. -/

/-- Program counter of one request with respect to the job table:
before `jobs.Load`; after a miss, before `jobs.Store`; registered and running
the conversion; finished (after the deferred `jobs.Delete`); or rejected by
the duplicate check. -/
inductive PC where
  | beforeLoad
  | beforeStore
  | running
  | finished
  | rejected
deriving DecidableEq, Repr

/-- One table-related step of one request (tasks.go lines 215-220). -/
def jobStep (key : Nat) (pc : PC) (table : List Nat) : PC × List Nat :=
  match pc with
  | .beforeLoad => if table.contains key then (.rejected, table) else (.beforeStore, table)
  | .beforeStore => (.running, key :: table)
  | .running => (.finished, table.erase key)
  | .finished => (.finished, table)
  | .rejected => (.rejected, table)

/-- Shared state of two concurrent requests with the same job key. -/
structure RaceState where
  table : List Nat
  pcA : PC
  pcB : PC
deriving DecidableEq, Repr

/-- Let one of the two requests (A when `who`, else B) take its next step. -/
def schedStep (key : Nat) (st : RaceState) (who : Bool) : RaceState :=
  if who then
    let (pc, tb) := jobStep key st.pcA st.table
    { st with pcA := pc, table := tb }
  else
    let (pc, tb) := jobStep key st.pcB st.table
    { st with pcB := pc, table := tb }

/-- Run a schedule (a list of which-request choices) from a state. -/
def runSched (key : Nat) (sched : List Bool) (st : RaceState) : RaceState :=
  sched.foldl (schedStep key) st

/-- Both requests poised at the duplicate check, table empty. -/
def raceInit : RaceState :=
  { table := [], pcA := .beforeLoad, pcB := .beforeLoad }

/-! ## Concrete fixtures used by the witness theorems -/

/-- A concrete stand-in for the SHA1 content hash. -/
def shaW : List Nat → List Nat := fun l => 7 :: l

/-- A concrete image task: matches `jpg`, minimum size 100 bytes. -/
def taskW : Task where
  extensions := [['j', 'p', 'g']]
  minFilesizeBytes := 100

/-- A concrete upload: `photo.jpg`, 200 declared bytes, every external step
succeeding, the converter producing one smaller file `out.avif`. -/
def envW : ReqEnv where
  tasks := [taskW]
  filename := ['p', 'h', 'o', 't', 'o', '.', 'j', 'p', 'g']
  size := 200
  content := [1, 2, 3]
  tempCreateOk := true
  copyOk := true
  workDirOk := true
  templateOk := true
  cmd := .ok [{ name := ['o', 'u', 't', '.', 'a', 'v', 'i', 'f'], content := [9] }]
  uploadOk := true

/-- The processor `NewTaskProcessorFromMultipart` builds for `envW`. -/
def tpW : TaskProcessor where
  task := taskW
  originalFilename := ['p', 'h', 'o', 't', 'o', '.', 'j', 'p', 'g']
  originalExtension := ['.', 'j', 'p', 'g']
  originalSize := 200
  originalContent := [1, 2, 3]

/-- The run metadata `TaskProcessor.Run` records for `envW`. -/
def infoW : RunInfo where
  processedName := ['o', 'u', 't', '.', 'a', 'v', 'i', 'f']
  processedContent := [9]
  processedSize := 1
  processedExtension := ['.', 'a', 'v', 'i', 'f']
  processedFilename := ['p', 'h', 'o', 't', 'o', '.', 'a', 'v', 'i', 'f']

/-- `envW` with the external command failing. -/
def envWrunFail : ReqEnv := { envW with cmd := CmdResult.fail }

/-- `envW` with no configured tasks: the extension matches nothing. -/
def envWnoTask : ReqEnv := { envW with tasks := [] }

/-- `envW` with the upstream upload failing. -/
def envWupFail : ReqEnv := { envW with uploadOk := false }

/-- `envW` with the copy of the upload into the fresh temp file failing. -/
def envWleak : ReqEnv := { envW with copyOk := false }

/-- A concrete produced file `c.d` for the `runPost` witness. -/
def pfX : ProducedFile where
  name := ['c', '.', 'd']
  content := [5]

/-- The run metadata `runPost` records for original `a.b` and produced `c.d`. -/
def riX : RunInfo where
  processedName := ['c', '.', 'd']
  processedContent := [5]
  processedSize := 1
  processedExtension := ['.', 'd']
  processedFilename := ['a', '.', 'd']

/-! ## Lemmas about the byte-substitution helpers -/

theorem writeAt_length (s : List Nat) (off : Nat) (v : List Nat) :
    (writeAt s off v).length = s.length := by
  simp only [writeAt, List.length_append, List.length_take, List.length_drop]
  omega

theorem replaceLoop_length (old v : List Nat) :
    ∀ (fuel : Nat) (s : List Nat) (offset : Nat),
      (replaceLoop old v fuel s offset).length = s.length := by
  intro fuel
  induction fuel with
  | zero => intro s offset; rfl
  | succ n ih =>
    intro s offset
    simp only [replaceLoop]
    cases h : bIndex old (s.drop offset) with
    | none => rfl
    | some i => rw [ih, writeAt_length]

theorem bIndex_none_of_not_occurs (pat : List Nat) :
    ∀ s, occursIn pat s = false → bIndex pat s = none := by
  intro s
  induction s with
  | nil =>
    intro h
    simp only [occursIn] at h
    simp [bIndex, h]
  | cons b t ih =>
    intro h
    simp only [occursIn, Bool.or_eq_false_iff] at h
    simp [bIndex, h.1, ih h.2]

/-! ## Lemmas about filename extensions -/

theorem takeWhile_ne_dot_concat (l : List Char) (h : '.' ∈ l) :
    l.takeWhile (fun c => c ≠ '.') ++ ['.'] <+: l := by
  induction l with
  | nil => cases h
  | cons c t ih =>
    by_cases hc : c = '.'
    · subst hc
      have ht : List.takeWhile (fun c => c ≠ '.') ('.' :: t) = [] := by
        simp [List.takeWhile_cons]
      rw [ht, List.nil_append]
      exact ⟨t, rfl⟩
    · have ht : '.' ∈ t := by
        rcases List.mem_cons.mp h with h1 | h1
        · exact absurd h1.symm hc
        · exact h1
      have htw : List.takeWhile (fun c => c ≠ '.') (c :: t)
          = c :: t.takeWhile (fun c => c ≠ '.') := by
        simp [List.takeWhile_cons, hc]
      rw [htw, List.cons_append, List.cons_prefix_cons]
      exact ⟨rfl, ih ht⟩

theorem goExt_suffix (s : List Char) : goExt s <:+ s := by
  unfold goExt
  by_cases h : '.' ∈ s.reverse.takeWhile (fun c => c ≠ '/')
  · rw [if_pos h, ← List.reverse_prefix]
    have h1 : ('.' :: ((s.reverse.takeWhile (fun c => c ≠ '/')).takeWhile
        (fun c => c ≠ '.')).reverse).reverse
        = (s.reverse.takeWhile (fun c => c ≠ '/')).takeWhile (fun c => c ≠ '.') ++ ['.'] := by
      simp
    rw [h1]
    exact (takeWhile_ne_dot_concat _ h).trans (List.takeWhile_prefix _)
  · rw [if_neg h]
    exact List.nil_suffix

theorem trimSuffix_goExt (s : List Char) :
    trimSuffix s (goExt s) = s.take (s.length - (goExt s).length) := by
  unfold trimSuffix
  rw [if_pos (List.isSuffixOf_iff_suffix.mpr (goExt_suffix s))]

/-! ## Lemmas about the trace observers -/

theorem uploadsOf_append (a b : List Action) :
    uploadsOf (a ++ b) = uploadsOf a ++ uploadsOf b := by
  unfold uploadsOf
  rw [List.filterMap_append]

theorem recordsOf_append (a b : List Action) :
    recordsOf (a ++ b) = recordsOf a ++ recordsOf b := by
  unfold recordsOf
  rw [List.filterMap_append]

theorem tableOpsOf_append (a b : List Action) :
    tableOpsOf (a ++ b) = tableOpsOf a ++ tableOpsOf b := by
  unfold tableOpsOf
  rw [List.filter_append]

theorem hasRunStart_append (a b : List Action) :
    hasRunStart (a ++ b) = (hasRunStart a || hasRunStart b) := by
  unfold hasRunStart
  rw [List.any_append]

theorem uploadsOf_ctorActs (env : ReqEnv) : uploadsOf (ctorActs env) = [] := by
  unfold ctorActs
  split <;> rfl

theorem uploadsOf_runActs (env : ReqEnv) : uploadsOf (runActs env) = [] := by
  unfold runActs
  split <;> rfl

theorem uploadsOf_uploadErrActs (env : ReqEnv) : uploadsOf (uploadErrActs env) = [] := by
  unfold uploadErrActs
  split <;> rfl

theorem recordsOf_ctorActs (env : ReqEnv) : recordsOf (ctorActs env) = [] := by
  unfold ctorActs
  split <;> rfl

theorem recordsOf_runActs (env : ReqEnv) : recordsOf (runActs env) = [] := by
  unfold runActs
  split <;> rfl

theorem recordsOf_uploadErrActs (env : ReqEnv) : recordsOf (uploadErrActs env) = [] := by
  unfold uploadErrActs
  split <;> rfl

theorem tableOpsOf_ctorActs (env : ReqEnv) : tableOpsOf (ctorActs env) = [] := by
  unfold ctorActs
  split <;> rfl

theorem tableOpsOf_runActs (env : ReqEnv) : tableOpsOf (runActs env) = [] := by
  unfold runActs
  split <;> rfl

theorem tableOpsOf_uploadErrActs (env : ReqEnv) : tableOpsOf (uploadErrActs env) = [] := by
  unfold uploadErrActs
  split <;> rfl

theorem hasRunStart_ctorActs (env : ReqEnv) : hasRunStart (ctorActs env) = false := by
  unfold ctorActs
  split <;> rfl

theorem hasRunStart_uploadErrActs (env : ReqEnv) : hasRunStart (uploadErrActs env) = false := by
  unfold uploadErrActs
  split <;> rfl

/-! ## Inversion lemmas for the constructor and the pipeline -/

theorem ctor_ok_inv (env : ReqEnv) (tp : TaskProcessor)
    (h : NewTaskProcessorFromMultipart env = .ok tp) :
    ctorCreatesTemp env = true ∧ env.copyOk = true := by
  simp only [NewTaskProcessorFromMultipart] at h
  cases h1 : isValidFilename (goExt env.filename) with
  | false => rw [h1] at h; simp at h
  | true =>
    rw [h1] at h
    simp only [Bool.true_eq_false, if_false] at h
    cases hfind : findTask env.tasks (checkExtOf env.filename) with
    | none => rw [hfind] at h; simp at h
    | some t =>
      rw [hfind] at h
      simp only [] at h
      by_cases hmin : env.size < t.minFilesizeBytes
      · rw [if_pos hmin] at h; simp at h
      · rw [if_neg hmin] at h
        cases h2 : env.tempCreateOk with
        | false => rw [h2] at h; simp at h
        | true =>
          rw [h2] at h
          simp only [Bool.true_eq_false, if_false] at h
          cases h3 : env.copyOk with
          | false => rw [h3] at h; simp at h
          | true =>
            refine ⟨?_, rfl⟩
            unfold ctorCreatesTemp
            rw [hfind, h1, h2]
            simp only [Bool.true_and, Bool.and_true]
            exact decide_eq_true (by omega)

theorem ctor_error_creates (env : ReqEnv) (msg : List Char)
    (h : NewTaskProcessorFromMultipart env = .error msg)
    (hct : ctorCreatesTemp env = true) : env.copyOk = false := by
  cases hc : env.copyOk with
  | false => rfl
  | true =>
    exfalso
    unfold ctorCreatesTemp at hct
    simp only [Bool.and_eq_true] at hct
    obtain ⟨⟨h1, h2⟩, h3⟩ := hct
    simp only [NewTaskProcessorFromMultipart] at h
    rw [h1] at h
    simp only [Bool.true_eq_false, if_false] at h
    cases hfind : findTask env.tasks (checkExtOf env.filename) with
    | none => rw [hfind] at h2; simp at h2
    | some t =>
      rw [hfind] at h h2
      simp only [] at h h2
      have hmin : t.minFilesizeBytes ≤ env.size := of_decide_eq_true h2
      rw [if_neg (by omega), h3, hc] at h
      simp at h

theorem run_ok_workDir (tp : TaskProcessor) (env : ReqEnv) (info : RunInfo)
    (h : tp.Run env = .ok info) : env.workDirOk = true := by
  cases hw : env.workDirOk with
  | true => rfl
  | false =>
    exfalso
    unfold TaskProcessor.Run at h
    rw [hw] at h
    simp at h

/-! ## Claim theorems -/

/-- C2: for every input byte slice and every (old, new) pair, `replaceAllBytes`
returns a slice of exactly the input's length; and whenever the replacement is
longer than the match it returns the input completely unchanged. -/
theorem replaceAllBytes_length_and_refusal (s old v : List Nat) :
    (replaceAllBytes s old v).length = s.length ∧
    (old.length < v.length → replaceAllBytes s old v = s) := by
  constructor
  · unfold replaceAllBytes
    split
    · rfl
    · exact replaceLoop_length old v (s.length + 1) s 0
  · intro h
    unfold replaceAllBytes
    rw [if_pos h]

theorem replaceAllBytes_length_and_refusal_witness :
    (replaceAllBytes [1, 2, 3] [2] [8, 9]).length = 3 ∧
    replaceAllBytes [1, 2, 3] [2] [8, 9] = [1, 2, 3] :=
  ⟨(replaceAllBytes_length_and_refusal [1, 2, 3] [2] [8, 9]).1,
   (replaceAllBytes_length_and_refusal [1, 2, 3] [2] [8, 9]).2 (by decide)⟩

/-- C9: rewriting a byte slice that contains zero occurrences of the searched
string is a byte-identical no-op. -/
theorem rewrite_noop_without_occurrence (s old v : List Nat)
    (h : occursIn old s = false) : replaceAllBytes s old v = s := by
  unfold replaceAllBytes
  split
  · rfl
  · simp only [replaceLoop, List.drop_zero]
    rw [bIndex_none_of_not_occurs old s h]

theorem rewrite_noop_without_occurrence_witness :
    occursIn [5] [1, 2, 3] = false ∧ replaceAllBytes [1, 2, 3] [5] [9] = [1, 2, 3] :=
  ⟨by decide, rewrite_noop_without_occurrence [1, 2, 3] [5] [9] (by decide)⟩

/-- C3 (refutation evidence): the duplicate check (`jobs.Load`) and the
registration (`jobs.Store`) are two separate steps, so the schedule in which
both requests run their check before either stores lets both register as
active jobs and proceed to conversion — neither is rejected, and the table
ends up holding the key twice.  This contradicts the claimed atomic
check-and-insert. -/
theorem dedup_check_and_store_race :
    (runSched 0 [true, false, true, false] raceInit).pcA = PC.running ∧
    (runSched 0 [true, false, true, false] raceInit).pcB = PC.running ∧
    (runSched 0 [true, false, true, false] raceInit).table = [0, 0] := by
  decide

/-- C4: after the external command exits successfully, `Run` fails when the
scratch output directory holds zero or at least two files; with exactly one
file it succeeds, records that file's actual size and extension, and derives
the client-facing filename by replacing the original filename's extension
(when the stored extension is the filename's extension, as the constructor
guarantees) with the produced file's extension. -/
theorem run_output_dir_postcondition (n e : List Char) (files : List ProducedFile) :
    (files.length ≠ 1 → runPost n e files = .error ['n']) ∧
    (∀ f, files = [f] →
      runPost n e files
        = .ok { processedName := f.name, processedContent := f.content,
                processedSize := (f.content.length : Int),
                processedExtension := goExt f.name,
                processedFilename := trimSuffix n e ++ goExt f.name } ∧
      (e = goExt n →
        trimSuffix n e ++ goExt f.name
          = n.take (n.length - (goExt n).length) ++ goExt f.name)) := by
  constructor
  · intro hlen
    match files with
    | [] => rfl
    | [f] => simp at hlen
    | a :: b :: t => rfl
  · intro f hf
    subst hf
    refine ⟨rfl, ?_⟩
    intro he
    subst he
    rw [trimSuffix_goExt]

theorem run_output_dir_postcondition_witness :
    runPost ['a', '.', 'b'] ['.', 'b'] [] = Except.error ['n'] ∧
    runPost ['a', '.', 'b'] ['.', 'b'] [pfX] = Except.ok riX ∧
    trimSuffix ['a', '.', 'b'] ['.', 'b'] ++ goExt pfX.name
      = (['a', '.', 'b'].take 1) ++ goExt pfX.name := by
  have h1 := (run_output_dir_postcondition ['a', '.', 'b'] ['.', 'b'] []).1 (by decide)
  have h2 := (run_output_dir_postcondition ['a', '.', 'b'] ['.', 'b'] [pfX]).2 pfX rfl
  exact ⟨h1, h2.1, h2.2 (by decide)⟩

/-- C1: for every job whose conversion pipeline run succeeds, if the processed
size is at least the original (declared) size the job forwards the original
file under its original filename and records no hash pair; if the processed
size is strictly smaller it forwards the processed file under its derived
filename and records the pair (hash of processed, hash of original). -/
theorem newJob_size_choice (sha : List Nat → List Nat) (env : ReqEnv)
    (tp : TaskProcessor) (info : RunInfo)
    (hc : NewTaskProcessorFromMultipart env = .ok tp)
    (hr : tp.Run env = .ok info) :
    (tp.originalSize ≤ info.processedSize →
      uploadsOf (newJob sha env false).1 = [(env.filename, env.content)] ∧
      recordsOf (newJob sha env false).1 = []) ∧
    (info.processedSize < tp.originalSize →
      uploadsOf (newJob sha env false).1 = [(info.processedFilename, info.processedContent)] ∧
      recordsOf (newJob sha env false).1
        = [(sha info.processedContent, sha tp.originalContent)]) := by
  obtain ⟨hct, -⟩ := ctor_ok_inv env tp hc
  have hwd := run_ok_workDir tp env info hr
  constructor
  · intro hle
    simp only [newJob, newJobBody, hc, hr, if_pos hle, Bool.false_eq_true, if_false]
    cases hup : env.uploadOk <;>
      simp [uploadsOf, recordsOf, ctorActs, runActs, uploadErrActs, hct, hwd, hup]
  · intro hlt
    have hnle : ¬tp.originalSize ≤ info.processedSize := by omega
    simp only [newJob, newJobBody, hc, hr, if_neg hnle, Bool.false_eq_true, if_false]
    cases hup : env.uploadOk <;>
      simp [uploadsOf, recordsOf, ctorActs, runActs, uploadErrActs, hct, hwd, hup]

theorem newJob_size_choice_witness :
    uploadsOf (newJob shaW envW false).1 = [(infoW.processedFilename, infoW.processedContent)] ∧
    recordsOf (newJob shaW envW false).1
      = [(shaW infoW.processedContent, shaW tpW.originalContent)] :=
  (newJob_size_choice shaW envW tpW infoW (by rfl) (by rfl)).2 (by decide)

/-- C5: whenever `TaskProcessor.Run` returns an error the job aborts with an
error and nothing is uploaded upstream — `uploadUpstream` is never invoked and
no hash pair is recorded. -/
theorem run_failure_aborts_job (sha : List Nat → List Nat) (env : ReqEnv)
    (tp : TaskProcessor) (msg : List Char)
    (hc : NewTaskProcessorFromMultipart env = .ok tp)
    (hr : tp.Run env = .error msg) :
    (newJob sha env false).2 = true ∧
    uploadsOf (newJob sha env false).1 = [] ∧
    recordsOf (newJob sha env false).1 = [] := by
  obtain ⟨hct, -⟩ := ctor_ok_inv env tp hc
  refine ⟨?_, ?_, ?_⟩
  · simp only [newJob, newJobBody, hc, hr, Bool.false_eq_true, if_false]
  · simp only [newJob, newJobBody, hc, hr, Bool.false_eq_true, if_false]
    cases hwd : env.workDirOk <;>
      simp [uploadsOf, ctorActs, runActs, hct, hwd]
  · simp only [newJob, newJobBody, hc, hr, Bool.false_eq_true, if_false]
    cases hwd : env.workDirOk <;>
      simp [recordsOf, ctorActs, runActs, hct, hwd]

theorem run_failure_aborts_job_witness :
    (newJob shaW envWrunFail false).2 = true ∧
    uploadsOf (newJob shaW envWrunFail false).1 = [] ∧
    recordsOf (newJob shaW envWrunFail false).1 = [] :=
  run_failure_aborts_job shaW envWrunFail tpW ['c'] (by rfl) (by rfl)

/-- C7: an upload whose extension matches no configured task, or whose
declared size is below the matched task's minimum, is passthrough: the
conversion pipeline is never started, the original file is forwarded under
its original filename, and no hash pair is recorded. -/
theorem passthrough_no_conversion (sha : List Nat → List Nat) (env : ReqEnv)
    (h : findTask env.tasks (checkExtOf env.filename) = none ∨
      ∃ t, findTask env.tasks (checkExtOf env.filename) = some t ∧
        env.size < t.minFilesizeBytes) :
    hasRunStart (newJob sha env false).1 = false ∧
    uploadsOf (newJob sha env false).1 = [(env.filename, env.content)] ∧
    recordsOf (newJob sha env false).1 = [] := by
  have hctor : ∃ msg, NewTaskProcessorFromMultipart env = .error msg := by
    simp only [NewTaskProcessorFromMultipart]
    cases h1 : isValidFilename (goExt env.filename) with
    | false => exact ⟨['e', '1'], by simp⟩
    | true =>
      rcases h with hnone | ⟨t, hsome, hmin⟩
      · rw [hnone]
        exact ⟨['e', '2'], by simp⟩
      · rw [hsome]
        simp only [Bool.true_eq_false, if_false]
        exact ⟨['e', '3'], by simp [if_pos hmin]⟩
  have hctf : ctorCreatesTemp env = false := by
    unfold ctorCreatesTemp
    rcases h with hnone | ⟨t, hsome, hmin⟩
    · rw [hnone]
      simp
    · rw [hsome]
      have : decide (t.minFilesizeBytes ≤ env.size) = false := by
        simp only [decide_eq_false_iff_not]
        omega
      simp [this]
  obtain ⟨msg, hmsg⟩ := hctor
  refine ⟨?_, ?_, ?_⟩
  · simp only [newJob, newJobBody, hmsg, Bool.false_eq_true, if_false]
    cases hup : env.uploadOk <;>
      simp [hasRunStart, ctorActs, uploadErrActs, hctf, hup]
  · simp only [newJob, newJobBody, hmsg, Bool.false_eq_true, if_false]
    cases hup : env.uploadOk <;>
      simp [uploadsOf, ctorActs, uploadErrActs, hctf, hup]
  · simp only [newJob, newJobBody, hmsg, Bool.false_eq_true, if_false]
    cases hup : env.uploadOk <;>
      simp [recordsOf, ctorActs, uploadErrActs, hctf, hup]

theorem passthrough_no_conversion_witness :
    hasRunStart (newJob shaW envWnoTask false).1 = false ∧
    uploadsOf (newJob shaW envWnoTask false).1 = [(envWnoTask.filename, envWnoTask.content)] ∧
    recordsOf (newJob shaW envWnoTask false).1 = [] :=
  passthrough_no_conversion shaW envWnoTask (Or.inl (by decide))

/-- C10: when the job chose the processed file (strictly smaller) and the
upstream upload fails, `newJob` writes the HTTP error response but still
records the hash pair (hash of processed, hash of original) and returns no
error — recording is not conditioned on the forward succeeding. -/
theorem checksum_recorded_despite_upload_failure (sha : List Nat → List Nat)
    (env : ReqEnv) (tp : TaskProcessor) (info : RunInfo)
    (hc : NewTaskProcessorFromMultipart env = .ok tp)
    (hr : tp.Run env = .ok info)
    (hlt : info.processedSize < tp.originalSize)
    (hup : env.uploadOk = false) :
    Action.httpError ∈ (newJob sha env false).1 ∧
    Action.record (sha info.processedContent) (sha tp.originalContent)
      ∈ (newJob sha env false).1 ∧
    (newJob sha env false).2 = false := by
  have hnle : ¬tp.originalSize ≤ info.processedSize := by omega
  obtain ⟨hct, -⟩ := ctor_ok_inv env tp hc
  have hwd := run_ok_workDir tp env info hr
  refine ⟨?_, ?_, ?_⟩
  · simp only [newJob, newJobBody, hc, hr, if_neg hnle, Bool.false_eq_true, if_false]
    simp [ctorActs, runActs, uploadErrActs, hct, hwd, hup]
  · simp only [newJob, newJobBody, hc, hr, if_neg hnle, Bool.false_eq_true, if_false]
    simp [ctorActs, runActs, uploadErrActs, hct, hwd, hup]
  · simp only [newJob, newJobBody, hc, hr, if_neg hnle, Bool.false_eq_true, if_false]

theorem checksum_recorded_despite_upload_failure_witness :
    Action.httpError ∈ (newJob shaW envWupFail false).1 ∧
    Action.record (shaW infoW.processedContent) (shaW tpW.originalContent)
      ∈ (newJob shaW envWupFail false).1 ∧
    (newJob shaW envWupFail false).2 = false :=
  checksum_recorded_despite_upload_failure shaW envWupFail tpW infoW
    (by rfl) (by rfl) (by decide) (by rfl)

theorem tableOpsOf_cons_store (k : JobKey) (l : List Action) :
    tableOpsOf (Action.tableStore k :: l) = Action.tableStore k :: tableOpsOf l := by
  unfold tableOpsOf
  rw [List.filter_cons_of_pos]
  rfl

theorem tableOpsOf_newJobBody (sha : List Nat → List Nat) (env : ReqEnv) :
    tableOpsOf (newJobBody sha env).1 = [] := by
  cases hc : NewTaskProcessorFromMultipart env with
  | error msg =>
    cases hct : ctorCreatesTemp env <;> cases hup : env.uploadOk <;>
      simp [newJobBody, hc, tableOpsOf, ctorActs, uploadErrActs, hct, hup]
  | ok tp =>
    cases hr : tp.Run env with
    | error msg =>
      cases hct : ctorCreatesTemp env <;> cases hwd : env.workDirOk <;>
        simp [newJobBody, hc, hr, tableOpsOf, ctorActs, runActs, hct, hwd]
    | ok info =>
      by_cases hle : tp.originalSize ≤ info.processedSize <;>
        cases hct : ctorCreatesTemp env <;> cases hwd : env.workDirOk <;>
          cases hup : env.uploadOk <;>
            simp [newJobBody, hc, hr, tableOpsOf, ctorActs, runActs, uploadErrActs,
              hct, hwd, hup, hle]

/-- C6: a request whose job key is already in the in-flight table fails
immediately with a server error and performs no work (its whole trace is the
error response); otherwise the key is stored as the first action and deleted
as the last action, each exactly once. -/
theorem newJob_dedup_register_release (sha : List Nat → List Nat) (env : ReqEnv) :
    ((newJob sha env true).1 = [Action.httpError] ∧ (newJob sha env true).2 = true) ∧
    ((newJob sha env false).1.head?
        = some (Action.tableStore (jobKey env.filename env.size)) ∧
      (newJob sha env false).1.getLast?
        = some (Action.tableDelete (jobKey env.filename env.size)) ∧
      tableOpsOf (newJob sha env false).1
        = [Action.tableStore (jobKey env.filename env.size),
           Action.tableDelete (jobKey env.filename env.size)]) := by
  refine ⟨⟨rfl, rfl⟩, ?_, ?_, ?_⟩
  · simp [newJob]
  · simp only [newJob, Bool.false_eq_true, if_false]
    rw [← List.cons_append, List.getLast?_concat]
  · simp only [newJob, Bool.false_eq_true, if_false]
    rw [tableOpsOf_cons_store, tableOpsOf_append, tableOpsOf_newJobBody]
    rfl

theorem liveAfter_append (h : List Res) (a b : List Action) :
    liveAfter h (a ++ b) = liveAfter (liveAfter h a) b := by
  induction a generalizing h with
  | nil => rfl
  | cons x t ih => cases x <;> simp [liveAfter, ih]

/-- C8 (refutation): on the exit path where the constructor created the
original temp file and the copy of the upload into it failed, the temp file
is never removed — it survives the end of the session, so not every exit
path releases all temporary resources. -/
theorem tempfile_leak_on_copy_failure :
    liveAfter [] (newJob shaW envWleak false).1 = [Res.origTemp] ∧
    liveAfter [] (newJob shaW envWleak false).1 ≠ [] := by
  constructor
  · rfl
  · decide

/-- C8 (amended): for every session, all temporary resources are released on
every exit path, except the constructor path where the original temp file was
created and the copy into it failed, which leaks exactly that temp file. -/
theorem session_cleanup_characterization (sha : List Nat → List Nat) (env : ReqEnv) :
    liveAfter [] (newJob sha env true).1 = [] ∧
    liveAfter [] (newJob sha env false).1
      = (if leaksOrigTemp env then [Res.origTemp] else []) := by
  refine ⟨rfl, ?_⟩
  simp only [newJob, Bool.false_eq_true, if_false]
  rw [show Action.tableStore (jobKey env.filename env.size) ::
      ((newJobBody sha env).1 ++ [Action.tableDelete (jobKey env.filename env.size)])
      = (Action.tableStore (jobKey env.filename env.size) :: (newJobBody sha env).1)
        ++ [Action.tableDelete (jobKey env.filename env.size)] from rfl]
  rw [liveAfter_append]
  have hstep : ∀ l, liveAfter ([] : List Res)
      (Action.tableStore (jobKey env.filename env.size) :: l) = liveAfter [] l :=
    fun l => rfl
  rw [hstep]
  have hdel : ∀ h : List Res,
      liveAfter h [Action.tableDelete (jobKey env.filename env.size)] = h :=
    fun h => rfl
  rw [hdel]
  cases hc : NewTaskProcessorFromMultipart env with
  | error msg =>
    cases hct : ctorCreatesTemp env with
    | false =>
      have hleak : leaksOrigTemp env = false := by simp [leaksOrigTemp, hct]
      cases hup : env.uploadOk <;>
        simp [newJobBody, hc, liveAfter, ctorActs, uploadErrActs, hct, hup, hleak]
    | true =>
      have hcopy := ctor_error_creates env msg hc hct
      have hleak : leaksOrigTemp env = true := by simp [leaksOrigTemp, hct, hcopy]
      cases hup : env.uploadOk <;>
        simp [newJobBody, hc, liveAfter, ctorActs, uploadErrActs, hct, hup, hleak]
  | ok tp =>
    obtain ⟨hct, hcopy⟩ := ctor_ok_inv env tp hc
    have hleak : leaksOrigTemp env = false := by simp [leaksOrigTemp, hcopy]
    cases hr : tp.Run env with
    | error msg =>
      cases hwd : env.workDirOk <;>
        simp [newJobBody, hc, hr, liveAfter, ctorActs, runActs, hct, hwd, hleak]
    | ok info =>
      have hwd := run_ok_workDir tp env info hr
      by_cases hle : tp.originalSize ≤ info.processedSize <;>
        cases hup : env.uploadOk <;>
          simp [newJobBody, hc, hr, liveAfter, ctorActs, runActs, uploadErrActs,
            hct, hwd, hup, hle, hleak]

end IUO
